import Mathlib

/-!
Shallow embedding of the lines2anki add-on (src/lines2anki/__init__.py) and
verification of its specification.  Strings are modelled as `List Char`
(Python `str` after decoding); host collaborators (media storage, note
persistence, the clock, the random generator, the filesystem) are modelled
as explicit parameters recording their observable interactions.
-/

namespace L2A

/-- Python `str.lower()` restricted to the ASCII range, which is all that the
media-extension comparisons in the source exercise. -/
def lowerStr (s : List Char) : List Char := s.map Char.toLower

/-- Index of the last occurrence of `c` in `p`, or `-1` when absent:
Python `p.rfind(c)` for a single-character needle. -/
def rlastIdx : List Char → Char → Int
  | [], _ => -1
  | a :: rest, c =>
    let r := rlastIdx rest c
    if 0 ≤ r then r + 1 else if a = c then 0 else -1

/-- `os.path.splitext` (posixpath): split at the last dot, provided that dot
lies after the last path separator and at least one non-dot character stands
between the separator and that dot (leading dots start no extension). -/
def splitext (p : List Char) : List Char × List Char :=
  let sepIdx := rlastIdx p '/'
  let dotIdx := rlastIdx p '.'
  if sepIdx < dotIdx then
    if ((p.drop (sepIdx + 1).toNat).take (dotIdx - sepIdx - 1).toNat).any (fun c => c ≠ '.') then
      (p.take dotIdx.toNat, p.drop dotIdx.toNat)
    else (p, [])
  else (p, [])

/-- One `[0-9]+` group of the timestamp regex followed by the literal `stop`
character: the maximal leading digit run of `s` (which must be non-empty) and
the remainder after the `stop` character.  The quantifier `[0-9]+` is greedy,
and since neither `:` nor `]` is a digit, a digit run shorter than the maximal
one is followed by a digit and can never satisfy the pattern, so maximal
munch (`takeWhile`) is exact for this regex. -/
def matchDigits (s : List Char) (stop : Char) : Option (List Char × List Char) :=
  let d := s.takeWhile Char.isDigit
  match s.dropWhile Char.isDigit with
  | c :: r => if d = [] then none else if c = stop then some (d, r) else none
  | [] => none

/-- Match of the regex `\[[0-9]+:[0-9]+:[0-9]+\]` at the start of `s`,
returning the matched token and the remainder. -/
def matchTs (s : List Char) : Option (List Char × List Char) :=
  match s with
  | c :: r1 =>
    if c = '[' then
      (matchDigits r1 ':').bind fun p1 =>
      (matchDigits p1.2 ':').bind fun p2 =>
      (matchDigits p2.2 ']').bind fun p3 =>
      some ('[' :: (p1.1 ++ ':' :: (p2.1 ++ ':' :: (p3.1 ++ [']']))), p3.2)
    else none
  | [] => none

/-- `re.sub(r'\[[0-9]+:[0-9]+:[0-9]+\]', '', s)` scans left to right, removing
each leftmost match and resuming after it.  Fuel-indexed so the recursion is
structural; every removal consumes at least one character, hence fuel
`s.length` always suffices (see `stripTsFuel_irrel`). -/
def stripTsFuel : Nat → List Char → List Char
  | _, [] => []
  | 0, s => s
  | fuel + 1, c :: rest =>
    match matchTs (c :: rest) with
    | some pr => stripTsFuel fuel pr.2
    | none => c :: stripTsFuel fuel rest

/-- The timestamp stripping applied at line 152 of the source. -/
def stripTs (s : List Char) : List Char := stripTsFuel s.length s

/-- A string that the regex `\[[0-9]+:[0-9]+:[0-9]+\]` matches exactly. -/
def IsTsTok (t : List Char) : Prop :=
  ∃ d1 d2 d3 : List Char,
    d1 ≠ [] ∧ d2 ≠ [] ∧ d3 ≠ [] ∧
    (∀ c ∈ d1, c.isDigit = true) ∧ (∀ c ∈ d2, c.isDigit = true) ∧
    (∀ c ∈ d3, c.isDigit = true) ∧
    t = '[' :: (d1 ++ ':' :: (d2 ++ ':' :: (d3 ++ [']'])))

/-- `StripDecomp s t` : `t` is obtained from `s` by deleting some
(possibly none) non-overlapping substrings, each of which the timestamp
regex matches exactly, and keeping everything else. -/
inductive StripDecomp : List Char → List Char → Prop
  | nil : StripDecomp [] []
  | keep (c : Char) {s t : List Char} : StripDecomp s t → StripDecomp (c :: s) (c :: t)
  | drop {tok s t : List Char} : IsTsTok tok → StripDecomp s t → StripDecomp (tok ++ s) t

theorem takeWhile_all {p : Char → Bool} :
    ∀ {l : List Char}, ∀ c ∈ l.takeWhile p, p c = true := by
  intro l
  induction l with
  | nil => intro c h; simp [List.takeWhile] at h
  | cons a rest ih =>
    intro c hc
    by_cases hpa : p a
    · rw [List.takeWhile_cons_of_pos hpa, List.mem_cons] at hc
      rcases hc with rfl | h
      · exact hpa
      · exact ih c h
    · rw [List.takeWhile_cons_of_neg hpa] at hc
      simp at hc

theorem matchDigits_decomp {s d r : List Char} {stop : Char}
    (h : matchDigits s stop = some (d, r)) :
    s = d ++ stop :: r ∧ d ≠ [] ∧ ∀ c ∈ d, c.isDigit = true := by
  simp only [matchDigits] at h
  split at h
  next c rest heq =>
    split at h
    next => simp at h
    next hne =>
      split at h
      next hstop =>
        simp only [Option.some.injEq, Prod.mk.injEq] at h
        obtain ⟨hd, hr⟩ := h
        subst hd hr hstop
        refine ⟨?_, hne, fun c hc => takeWhile_all c hc⟩
        conv_lhs => rw [← List.takeWhile_append_dropWhile (p := Char.isDigit) (l := s)]
        rw [heq]
      next => simp at h
  next => simp at h

theorem matchTs_decomp {s tok rest : List Char} (h : matchTs s = some (tok, rest)) :
    s = tok ++ rest ∧ IsTsTok tok := by
  match s with
  | [] => simp [matchTs] at h
  | c :: r1 =>
    simp only [matchTs] at h
    split at h
    case isFalse => simp at h
    case isTrue hc =>
      rw [Option.bind_eq_some] at h
      obtain ⟨p1, h1, h⟩ := h
      rw [Option.bind_eq_some] at h
      obtain ⟨p2, h2, h⟩ := h
      rw [Option.bind_eq_some] at h
      obtain ⟨p3, h3, h⟩ := h
      simp only [Option.some.injEq, Prod.mk.injEq] at h
      obtain ⟨htok, hrest⟩ := h
      obtain ⟨e1, hne1, hdig1⟩ := matchDigits_decomp (d := p1.1) (r := p1.2) (by rw [h1])
      obtain ⟨e2, hne2, hdig2⟩ := matchDigits_decomp (d := p2.1) (r := p2.2) (by rw [h2])
      obtain ⟨e3, hne3, hdig3⟩ := matchDigits_decomp (d := p3.1) (r := p3.2) (by rw [h3])
      subst hc hrest
      constructor
      · rw [← htok]
        simp only [List.cons_append, List.append_assoc, List.cons.injEq, true_and]
        rw [e1, e2, e3]
        simp
      · exact ⟨p1.1, p2.1, p3.1, hne1, hne2, hne3, hdig1, hdig2, hdig3, htok.symm⟩

theorem IsTsTok.ne_nil {tok : List Char} (h : IsTsTok tok) : tok ≠ [] := by
  rcases h with ⟨d1, d2, d3, -, -, -, -, -, -, rfl⟩
  simp

theorem matchTs_shrinks {s tok rest : List Char} (h : matchTs s = some (tok, rest)) :
    rest.length < s.length := by
  rcases matchTs_decomp h with ⟨rfl, htok⟩
  have : 0 < tok.length := List.length_pos.mpr htok.ne_nil
  simp [List.length_append]
  omega

theorem stripTsFuel_irrel :
    ∀ (f1 f2 : Nat) (s : List Char), s.length ≤ f1 → s.length ≤ f2 →
      stripTsFuel f1 s = stripTsFuel f2 s := by
  intro f1
  induction f1 with
  | zero =>
    intro f2 s h1 _
    have : s = [] := List.length_eq_zero.mp (Nat.le_zero.mp h1)
    subst this
    cases f2 <;> rfl
  | succ f ih =>
    intro f2 s h1 h2
    match s with
    | [] => cases f2 <;> rfl
    | c :: rest =>
      match f2 with
      | 0 => simp at h2
      | f2' + 1 =>
        simp only [stripTsFuel]
        cases hm : matchTs (c :: rest) with
        | some pr =>
          have hlt := @matchTs_shrinks (c :: rest) pr.1 pr.2 (by rw [hm])
          simp only [List.length_cons] at h1 h2 hlt
          exact ih f2' pr.2 (by omega) (by omega)
        | none =>
          simp only [List.length_cons] at h1 h2
          rw [ih f2' rest (by omega) (by omega)]

theorem takeWhile_append_of_all {p : Char → Bool} {l1 : List Char} (l2 : List Char)
    (h : ∀ a ∈ l1, p a = true) : (l1 ++ l2).takeWhile p = l1 ++ l2.takeWhile p := by
  induction l1 with
  | nil => simp
  | cons a rest ih =>
    have hpa : p a = true := h a (List.mem_cons_self a rest)
    simp only [List.cons_append, List.takeWhile_cons_of_pos hpa, List.cons.injEq, true_and]
    exact ih fun b hb => h b (List.mem_cons_of_mem a hb)

theorem dropWhile_append_of_all {p : Char → Bool} {l1 : List Char} (l2 : List Char)
    (h : ∀ a ∈ l1, p a = true) : (l1 ++ l2).dropWhile p = l2.dropWhile p := by
  induction l1 with
  | nil => simp
  | cons a rest ih =>
    have hpa : p a = true := h a (List.mem_cons_self a rest)
    simp only [List.cons_append, List.dropWhile_cons_of_pos hpa]
    exact ih fun b hb => h b (List.mem_cons_of_mem a hb)

theorem matchDigits_token {d r : List Char} {stop : Char} (hne : d ≠ [])
    (hdig : ∀ c ∈ d, c.isDigit = true) (hstop : stop.isDigit = false) :
    matchDigits (d ++ stop :: r) stop = some (d, r) := by
  have ht : (d ++ stop :: r).takeWhile Char.isDigit = d := by
    rw [takeWhile_append_of_all (stop :: r) hdig, List.takeWhile_cons_of_neg (by simp [hstop])]
    simp
  have hd : (d ++ stop :: r).dropWhile Char.isDigit = stop :: r := by
    rw [dropWhile_append_of_all (stop :: r) hdig, List.dropWhile_cons_of_neg (by simp [hstop])]
  simp [matchDigits, ht, hd, hne]

theorem matchTs_token {tok : List Char} (s : List Char) (h : IsTsTok tok) :
    matchTs (tok ++ s) = some (tok, s) := by
  obtain ⟨d1, d2, d3, hn1, hn2, hn3, hg1, hg2, hg3, rfl⟩ := h
  have e1 : (d1 ++ ':' :: (d2 ++ ':' :: (d3 ++ [']']))) ++ s
      = d1 ++ ':' :: (d2 ++ ':' :: (d3 ++ ']' :: s)) := by simp
  simp only [matchTs, List.cons_append, if_pos rfl]
  rw [e1, matchDigits_token hn1 hg1 (by decide)]
  simp only [Option.some_bind]
  rw [matchDigits_token hn2 hg2 (by decide)]
  simp only [Option.some_bind]
  rw [matchDigits_token hn3 hg3 (by decide)]
  simp

theorem stripTsFuel_decomp : ∀ (fuel : Nat) (s : List Char), s.length ≤ fuel →
    StripDecomp s (stripTsFuel fuel s) := by
  intro fuel
  induction fuel with
  | zero =>
    intro s h
    have : s = [] := List.length_eq_zero.mp (Nat.le_zero.mp h)
    subst this
    exact StripDecomp.nil
  | succ f ih =>
    intro s h
    match s with
    | [] => exact StripDecomp.nil
    | c :: rest =>
      simp only [stripTsFuel]
      cases hm : matchTs (c :: rest) with
      | some pr =>
        obtain ⟨heq, htok⟩ := @matchTs_decomp (c :: rest) pr.1 pr.2 (by rw [hm])
        have hlt := @matchTs_shrinks (c :: rest) pr.1 pr.2 (by rw [hm])
        rw [heq]
        simp only [List.length_cons] at h hlt
        exact StripDecomp.drop htok (ih pr.2 (by omega))
      | none =>
        simp only [List.length_cons] at h
        exact StripDecomp.keep c (ih rest (by omega))

theorem stripTs_decomp (s : List Char) : StripDecomp s (stripTs s) :=
  stripTsFuel_decomp s.length s (Nat.le_refl _)

theorem stripTs_drop_token {tok s : List Char} (h : IsTsTok tok) :
    stripTs (tok ++ s) = stripTs s := by
  have hmt := matchTs_token s h
  obtain ⟨d1, d2, d3, hn1, hn2, hn3, hg1, hg2, hg3, htok⟩ := h
  subst htok
  simp only [List.cons_append] at hmt ⊢
  simp only [stripTs, List.length_cons, List.length_append, stripTsFuel, hmt]
  exact stripTsFuel_irrel _ _ s (by simp) (Nat.le_refl _)

/-- Role a directory entry receives in the classification loop
(source lines 116-130). -/
inductive FileRole
  | audioRole
  | subRole
  | imageRole
  | ignored
deriving DecidableEq

/-- `SUB_TYPES = ("lrc",)` (source line 52). -/
def SUB_TYPES : List (List Char) := ["lrc".toList]

/-- Classification of one directory entry (lines 117-123): split off the
extension, drop its leading dot, lowercase it, and test membership in the
audio / subtitle / image extension sets in that order.  The audio and image
sets (`editor.audio`, `editor.pics`) belong to the host and are passed as
parameters. -/
def classify (audioTypes imageTypes : List (List Char)) (f : List Char) : FileRole :=
  let e := lowerStr ((splitext f).2.drop 1)
  if e ∈ audioTypes then FileRole.audioRole
  else if e ∈ SUB_TYPES then FileRole.subRole
  else if e ∈ imageTypes then FileRole.imageRole
  else FileRole.ignored

/-- `prov.replace(' ', '.')` (source line 107). -/
def std_prefix_of (prov : List Char) : List Char :=
  prov.map fun c => if c = ' ' then '.' else c

/-- State accumulated by the classification loop (lines 116-132):
the three role lists, the `copyfile` calls made for image files (working
directory copies, source and destination name), and how many times
`str(time.time())` has been consumed so far. -/
structure ClassifyState where
  audio_files : List (List Char × List Char)
  sub_files : List (List Char × List Char)
  std_image_files : List (List Char)
  copies : List (List Char × List Char)
  tokCount : Nat
deriving DecidableEq

/-- Body of the classification loop for one entry `f`.  An image file is
copied (within the working directory) to
`std_prefix + '.image-' + str(time.time()) + ext` and its new name recorded;
nothing in this loop touches the host media storage. -/
def classifyStep (audioTypes imageTypes : List (List Char)) (tok : Nat → List Char)
    (prefixStr : List Char) (st : ClassifyState) (f : List Char) : ClassifyState :=
  let file_root := (splitext f).1
  let ext := (splitext f).2
  match classify audioTypes imageTypes f with
  | FileRole.audioRole => { st with audio_files := st.audio_files ++ [(file_root, ext)] }
  | FileRole.subRole => { st with sub_files := st.sub_files ++ [(file_root, ext)] }
  | FileRole.imageRole =>
    let std_name := prefixStr ++ ".image-".toList ++ tok st.tokCount ++ ext
    { st with std_image_files := st.std_image_files ++ [std_name],
              copies := st.copies ++ [(f, std_name)],
              tokCount := st.tokCount + 1 }
  | FileRole.ignored => st

/-- The whole classification pass over `os.listdir(dir_path)`. -/
def classifyFiles (audioTypes imageTypes : List (List Char)) (tok : Nat → List Char)
    (prefixStr : List Char) (file_names : List (List Char)) : ClassifyState :=
  file_names.foldl (classifyStep audioTypes imageTypes tok prefixStr)
    ⟨[], [], [], [], 0⟩

/-- Decoding with `encoding='utf-8-sig'` is UTF-8 decoding that drops one
leading byte-order mark if present. -/
def stripBOM (s : List Char) : List Char :=
  match s with
  | c :: rest => if c = '\uFEFF' then rest else s
  | [] => []

/-- Subtitle text for one audio file (lines 146-157): the first entry of
`sub_files` whose root equals the audio root (`list.index` returns the first
match) is opened and stripped; when no entry matches, `ValueError` is caught
and the text is the empty string.  `fsRead` maps a file name to its UTF-8
decoded content. -/
def getLine (fsRead : List Char → List Char) (sub_files : List (List Char × List Char))
    (root : List Char) : List Char :=
  match sub_files.find? (fun r => r.1 == root) with
  | some s => stripTs (stripBOM (fsRead (root ++ s.2)))
  | none => []

/-- Field-map choice strings (source lines 55-66). -/
def FILL_NOTHING : List Char := []

def FILL_FILENAME : List Char := "File Name".toList

def FILL_PROV : List Char := "Provenance".toList

def FILL_AUDIO : List Char := "Audio".toList

def FILL_LINE : List Char := "Subtitle".toList

def FILL_IMAGE : List Char := "Random Image".toList

def FILLING_OPTIONS : List (List Char) :=
  [ FILL_NOTHING, FILL_FILENAME, FILL_PROV, FILL_AUDIO, FILL_LINE, FILL_IMAGE]

/-- Python list indexing `xs[i]`: a negative index counts from the end;
an index out of range on either side raises `IndexError` (`none`). -/
def pyGet {α : Type} (xs : List α) (i : Int) : Option α :=
  let j : Int := if i < 0 then i + xs.length else i
  if 0 ≤ j then xs.get? j.toNat else none

/-- State of the field-filling loop of one note (lines 160-179): the
`note[field] = data` assignments made so far, the `media.addFile` calls made
from the random-image branch, and how many random choices were consumed. -/
structure FillState where
  assigns : List (List Char × List Char)
  mediaAdded : List (List Char)
  pickCount : Nat
deriving DecidableEq

/-- One iteration of the field-filling loop (lines 160-179).  `pick` models
`random.choice` as an index source reduced modulo the list length.  A field
option index outside the range of `FILLING_OPTIONS` raises `IndexError`
(`none`). -/
def fillStep (prov line std_root : List Char) (std_image_files : List (List Char))
    (pick : Nat → Nat) (st : FillState) (fm : List Char × Int) : Option FillState :=
  match pyGet FILLING_OPTIONS fm.2 with
  | none => none
  | some option =>
    if option = FILL_NOTHING then some st
    else if option = FILL_FILENAME then
      some { st with assigns := st.assigns ++ [(fm.1, std_root)] }
    else if option = FILL_PROV then
      some { st with assigns := st.assigns ++ [(fm.1, prov)] }
    else if option = FILL_AUDIO then
      some { st with assigns := st.assigns ++ [(fm.1, "[sound:".toList ++ std_root ++ "]".toList)] }
    else if option = FILL_LINE then
      some { st with assigns := st.assigns ++ [(fm.1, line)] }
    else if option = FILL_IMAGE then
      if std_image_files.isEmpty then
        some { st with assigns := st.assigns ++ [(fm.1, [])] }
      else
        let image := (std_image_files.get? (pick st.pickCount % std_image_files.length)).getD []
        some { st with
               assigns := st.assigns ++ [(fm.1, "<img src=\"".toList ++ image ++ "\">".toList)],
               mediaAdded := st.mediaAdded ++ [image],
               pickCount := st.pickCount + 1 }
    else some st

/-- The field-filling loop over the whole field map (insertion order). -/
def fillFields (prov line std_root : List Char) (std_image_files : List (List Char))
    (pick : Nat → Nat) (field_map : List (List Char × Int)) (pickCount : Nat) :
    Option FillState :=
  field_map.foldlM (fillStep prov line std_root std_image_files pick) ⟨[], [], pickCount⟩

/-- One note handed to `mw.col.addNote`: its field assignments in order and
its tag list (`note.tags.append(tags)` appends the whole string as one tag). -/
structure NoteRec where
  fields : List (List Char × List Char)
  tagList : List (List Char)
deriving DecidableEq

/-- Observable state of the audio-note loop and its surroundings
(lines 135-197). -/
structure ImportState where
  tokCount : Nat
  pickCount : Nat
  copies : List (List Char × List Char)
  removed : List (List Char)
  mediaAdded : List (List Char)
  notesAdded : List NoteRec
  card_count : Nat
  is_import_failed : Bool
deriving DecidableEq

/-- Host collaborators of `do_import`: the two extension sets, the clock
(`str(time.time())` by call number), the random source, the per-submission
result of `mw.col.addNote` (whether any card was generated), and the
filesystem read. -/
structure Host where
  audioTypes : List (List Char)
  imageTypes : List (List Char)
  tok : Nat → List Char
  pick : Nat → Nat
  addNoteOk : Nat → Bool
  fsRead : List Char → List Char

/-- The audio-note loop (lines 135-193).  For the `i`-th audio file
`(root, ext)`: build `std_root`, copy the audio to `std_name`, import it into
media storage, delete the working copy, compute the subtitle line, fill the
fields, append the tag string, submit the note; a submission that generates
no cards sets the failure flag and breaks out of the loop. -/
def noteLoop (host : Host) (prefixStr prov : List Char)
    (field_map : List (List Char × Int)) (tags : List Char)
    (sub_files : List (List Char × List Char)) (std_image_files : List (List Char)) :
    Nat → List (List Char × List Char) → ImportState → Option ImportState
  | _, [], st => some st
  | i, a :: rest, st =>
    let std_root := prefixStr ++ ".audio-".toList ++ host.tok st.tokCount
      ++ "(".toList ++ (Nat.repr (i + 1)).toList ++ ")".toList
    let std_name := std_root ++ a.2
    let st1 : ImportState :=
      { st with tokCount := st.tokCount + 1,
                copies := st.copies ++ [(a.1 ++ a.2, std_name)],
                mediaAdded := st.mediaAdded ++ [std_name],
                removed := st.removed ++ [std_name] }
    let line := getLine host.fsRead sub_files a.1
    match fillFields prov line std_root std_image_files host.pick field_map st1.pickCount with
    | none => none
    | some fs =>
      let st2 : ImportState :=
        { st1 with pickCount := fs.pickCount,
                   mediaAdded := st1.mediaAdded ++ fs.mediaAdded,
                   notesAdded := st1.notesAdded ++ [⟨fs.assigns, [tags]⟩] }
      if host.addNoteOk st1.notesAdded.length then
        noteLoop host prefixStr prov field_map tags sub_files std_image_files
          (i + 1) rest { st2 with card_count := st2.card_count + 1 }
      else
        some { st2 with is_import_failed := true }

/-- `do_import` after the settings dialog returned (lines 100-205):
classify the directory entries, run the audio-note loop, then delete the
working-directory copies of the image files.  The result records every
observable interaction; `none` models an uncaught `IndexError` from an
out-of-range fill-option index. -/
def do_import_core (host : Host) (file_names : List (List Char)) (prov : List Char)
    (field_map : List (List Char × Int)) (tags : List Char) :
    Option (ClassifyState × ImportState) :=
  let sp := std_prefix_of prov
  let cs := classifyFiles host.audioTypes host.imageTypes host.tok sp file_names
  let st0 : ImportState := ⟨cs.tokCount, 0, [], [], [], [], 0, false⟩
  match noteLoop host sp prov field_map tags cs.sub_files cs.std_image_files
      0 cs.audio_files st0 with
  | none => none
  | some st => some (cs, { st with removed := st.removed ++ cs.std_image_files })

/-- Loading the persisted settings document (lines 250-256).  `file` is the
outcome of opening the file: `none` when opening raises `EnvironmentError`
(absent or unreadable file), `some s` its text otherwise; `parse` is
`json.load`.  The source catches only `EnvironmentError` — the dictionary
stays `empty` in that case — while a parse failure (`json.JSONDecodeError`,
a `ValueError`) is not caught and propagates (`Except.error`). -/
def load_settings {α : Type} (empty : α) (file : Option (List Char))
    (parse : List Char → Option α) : Except Unit α :=
  match file with
  | none => Except.ok empty
  | some s =>
    match parse s with
    | some d => Except.ok d
    | none => Except.error ()

/-- A settings document / confirmed configuration (the seven-field dictionary
of lines 423-430, minus nothing). -/
structure Settings where
  dirPath : List Char
  prov : List Char
  deckName : List Char
  modelName : List Char
  fieldMap : List (List Char × Int)
  tags : List Char
deriving DecidableEq

/-- Host state the dialog consults: which paths exist, the home directory,
the deck and note-type lists with their current selections, and each
note type's field names. -/
structure HostEnv where
  existingDirs : List (List Char)
  homePath : List Char
  deckList : List (List Char)
  currentDeck : List Char
  modelList : List (List Char)
  currentModel : List Char
  fieldsOf : List Char → List (List Char)

/-- `dict.get(key, default)` on a JSON-object association list. -/
def dictGet (m : List (List Char × Int)) (k : List Char) : Option Int :=
  (m.find? fun p => p.1 == k).map Prod.snd

/-- `QComboBox.setCurrentIndex` followed by `currentIndex()`: an index in
`[0, count)` is kept, anything else (including the explicit `-1` used for
"no selection") yields `-1`. -/
def comboSetIndex (count : Nat) (i : Int) : Int :=
  if 0 ≤ i ∧ i < count then i else -1

/-- `create_field_grid` (lines 343-370): one row per field of the selected
note type, whose combo box is set to `fieldMap.get(field_name, -1)`. -/
def create_field_grid (fields : List (List Char)) (fieldMap : List (List Char × Int)) :
    List (List Char × Int) :=
  fields.map fun f => (f, comboSetIndex FILLING_OPTIONS.length ((dictGet fieldMap f).getD (-1)))

/-- Dialog state right after `__init__` seeded it from a saved document:
the scalar inputs plus the field-mapping grid (label text, combo index). -/
structure DialogState where
  dirPath : List Char
  prov : List Char
  deckName : List Char
  modelName : List Char
  grid : List (List Char × Int)
  tags : List Char
deriving DecidableEq

/-- `SettingsDialog.__init__` seeding (lines 257-288): keep the saved
directory if it still exists (else the home directory), the saved deck/model
if still listed (else the host's current one), the provenance and tags
verbatim, and build the field grid from the saved field map (empty grid when
the model name is empty, line 353). -/
def dialog_init (env : HostEnv) (saved : Settings) : DialogState :=
  let dirPath := if saved.dirPath ∈ env.existingDirs then saved.dirPath else env.homePath
  let deckName := if saved.deckName ∈ env.deckList then saved.deckName else env.currentDeck
  let modelName := if saved.modelName ∈ env.modelList then saved.modelName else env.currentModel
  { dirPath := dirPath, prov := saved.prov, deckName := deckName, modelName := modelName,
    grid := if modelName = [] then [] else create_field_grid (env.fieldsOf modelName) saved.fieldMap,
    tags := saved.tags }

/-- `SettingsDialog.accept` (lines 383-434): re-prompt (`none`) when the
directory no longer exists; substitute `"Unknown"` for an empty provenance and
the host's current deck/model for empty selections; read the committed field
map back out of the grid, one row per field of the (validated) model —
a missing grid row would dereference `None` (`none` here). -/
def dialog_accept (env : HostEnv) (d : DialogState) : Option Settings :=
  if d.dirPath ∈ env.existingDirs then
    let prov := if d.prov = [] then "Unknown".toList else d.prov
    let deckName := if d.deckName = [] then env.currentDeck else d.deckName
    let modelName := if d.modelName = [] then env.currentModel else d.modelName
    if d.grid.length = (env.fieldsOf modelName).length then
      some { dirPath := d.dirPath, prov := prov, deckName := deckName,
             modelName := modelName, fieldMap := d.grid, tags := d.tags }
    else none
  else none

/-- Index of the first `false` answer of `ok` among the next `n` submissions
starting at submission number `base`. -/
def firstFail (ok : Nat → Bool) : Nat → Nat → Option Nat
  | _, 0 => none
  | base, n + 1 =>
    if ok base then (firstFail ok (base + 1) n).map (fun k => k + 1) else some 0

/-- Claim C4, counterexample to idempotence: one pass over
`[1[2:3:4]:5:6]` removes `[2:3:4]` and leaves `[1:5:6]`, which a second
pass removes entirely, so applying the stripping twice differs from
applying it once. -/
theorem strip_timestamps_not_idempotent_cex :
    stripTs (stripTs "[1[2:3:4]:5:6]".toList) ≠ stripTs "[1[2:3:4]:5:6]".toList := by
  decide

/-- Claim C4 (amended): a single application of the timestamp stripping
removes only substrings that the pattern `[digits:digits:digits]` matches
exactly (the output is the input with such tokens deleted and everything
else kept), and a token at the current scan position is always removed;
the function is not idempotent in general, because a deletion can
juxtapose the surrounding text into a new token. -/
theorem strip_timestamps_removes_only_tokens :
    (∀ s : List Char, StripDecomp s (stripTs s))
  ∧ ∀ tok s : List Char, IsTsTok tok → stripTs (tok ++ s) = stripTs s :=
  ⟨stripTs_decomp, fun _ _ h => stripTs_drop_token h⟩

theorem strip_timestamps_removes_only_tokens_witness :
    stripTs ("[0:0:0]".toList ++ "ab".toList) = stripTs "ab".toList :=
  strip_timestamps_removes_only_tokens.2 "[0:0:0]".toList "ab".toList
    ⟨['0'], ['0'], ['0'], by decide, by decide, by decide, by decide, by decide,
     by decide, by decide⟩

/-- Claim C6, counterexample: a present settings file whose content fails to
parse (`json.load` raises `JSONDecodeError`, which `except EnvironmentError`
does not catch) aborts the load instead of falling back to defaults. -/
theorem settings_parse_failure_aborts_cex :
    load_settings (0 : Nat) (some ['x']) (fun _ => none) = Except.error () := rfl

/-- Claim C6 (amended): an absent or unreadable settings file is non-fatal
and is treated as no previous configuration, and a successfully parsed file
yields its document; a parse failure of a present file, however, propagates
as an uncaught exception. -/
theorem settings_load_amended {α : Type} (empty : α) (parse : List Char → Option α)
    (s : List Char) (d : α) :
    load_settings empty none parse = Except.ok empty
  ∧ (parse s = some d → load_settings empty (some s) parse = Except.ok d)
  ∧ (parse s = none → load_settings empty (some s) parse = Except.error ()) := by
  refine ⟨rfl, fun h => ?_, fun h => ?_⟩ <;> simp [load_settings, h]

theorem settings_load_amended_witness :
    load_settings (0 : Nat) (some ['x']) (fun _ => some 7) = Except.ok 7 :=
  (settings_load_amended 0 (fun _ => some 7) ['x'] 7).2.1 rfl

/-- Claim C10: classification looks only at the lowercased extension, so two
file names whose extensions agree up to letter case (in particular, two names
differing only in extension case) receive the same role. -/
theorem classify_case_insensitive (audioTypes imageTypes : List (List Char))
    (f1 f2 : List Char) (h : lowerStr (splitext f1).2 = lowerStr (splitext f2).2) :
    classify audioTypes imageTypes f1 = classify audioTypes imageTypes f2 := by
  have hd : lowerStr ((splitext f1).2.drop 1) = lowerStr ((splitext f2).2.drop 1) := by
    simp only [lowerStr] at h ⊢
    rw [List.map_drop, List.map_drop, h]
  simp only [classify, hd]

theorem classify_case_insensitive_witness :
    classify ["mp3".toList] ["jpg".toList] "A.MP3".toList
      = classify ["mp3".toList] ["jpg".toList] "A.mp3".toList :=
  classify_case_insensitive _ _ _ _ (by decide)

/-- Claim C5: when some entry of `sub_files` has the audio file's base name,
the subtitle text is the first such file's content after BOM-aware UTF-8
decoding and timestamp stripping; when no entry matches, the text is the
empty string (the `ValueError` is caught, not propagated). -/
theorem subtitle_lookup (fsRead : List Char → List Char) (root e : List Char)
    (pre post : List (List Char × List Char)) (hpre : ∀ p ∈ pre, p.1 ≠ root) :
    getLine fsRead (pre ++ (root, e) :: post) root
      = stripTs (stripBOM (fsRead (root ++ e)))
  ∧ ∀ subs : List (List Char × List Char),
      (∀ p ∈ subs, p.1 ≠ root) → getLine fsRead subs root = [] := by
  constructor
  · have hfind : (pre ++ (root, e) :: post).find? (fun r => r.1 == root) = some (root, e) := by
      induction pre with
      | nil =>
        rw [List.nil_append, List.find?_cons_of_pos _ (by simp)]
      | cons p rest ih =>
        have hp : (p.1 == root) = false := by
          rw [beq_eq_false_iff_ne]
          exact hpre p (List.mem_cons_self p rest)
        rw [List.cons_append]
        simp only [List.find?, hp]
        exact ih fun q hq => hpre q (List.mem_cons_of_mem p hq)
    simp [getLine, hfind]
  · intro subs hs
    have hfind : subs.find? (fun r => r.1 == root) = none := by
      rw [List.find?_eq_none]
      intro p hp
      simp only [beq_iff_eq]
      exact hs p hp
    simp [getLine, hfind]

theorem subtitle_lookup_witness :
    getLine (fun n => if n = "a.lrc".toList then "[00:00:01]Hello".toList else [])
        ([("b".toList, ".lrc".toList)] ++ ("a".toList, ".lrc".toList) :: []) "a".toList
      = stripTs (stripBOM ((fun n => if n = "a.lrc".toList then "[00:00:01]Hello".toList else [])
          ("a".toList ++ ".lrc".toList))) :=
  (subtitle_lookup _ _ _ _ _ (by decide)).1

/-- Claim C8: a field whose fill option is `Random Image` (index 5) is
assigned the empty string when no image files were found, and a non-empty
`<img>` reference to one of the standardized imported image names when at
least one was found. -/
theorem random_image_fill (prov line std_root field : List Char)
    (imgs : List (List Char)) (pick : Nat → Nat) (st : FillState) :
    (imgs = [] → fillStep prov line std_root imgs pick st (field, 5) =
      some { st with assigns := st.assigns ++ [(field, [])] })
  ∧ (imgs ≠ [] → ∃ img ∈ imgs,
      fillStep prov line std_root imgs pick st (field, 5) =
        some { assigns := st.assigns ++ [(field, "<img src=\"".toList ++ img ++ "\">".toList)],
               mediaAdded := st.mediaAdded ++ [img],
               pickCount := st.pickCount + 1 }
      ∧ "<img src=\"".toList ++ img ++ "\">".toList ≠ []) := by
  constructor
  · intro h
    subst h
    rfl
  · intro h
    have hlen : 0 < imgs.length := List.length_pos.mpr h
    have hk : pick st.pickCount % imgs.length < imgs.length := Nat.mod_lt _ hlen
    have hget : imgs.get? (pick st.pickCount % imgs.length)
        = some (imgs.get ⟨pick st.pickCount % imgs.length, hk⟩) := List.get?_eq_get hk
    have hempty : imgs.isEmpty = false := by
      cases imgs
      · exact absurd rfl h
      · rfl
    refine ⟨imgs.get ⟨pick st.pickCount % imgs.length, hk⟩,
      List.get_mem imgs _ hk, ?_, by simp⟩
    show (match pyGet FILLING_OPTIONS (field, (5 : Int)).2 with
      | none => none
      | some option =>
        if option = FILL_NOTHING then some st
        else if option = FILL_FILENAME then
          some { st with assigns := st.assigns ++ [(field, std_root)] }
        else if option = FILL_PROV then
          some { st with assigns := st.assigns ++ [(field, prov)] }
        else if option = FILL_AUDIO then
          some { st with assigns := st.assigns ++ [(field, "[sound:".toList ++ std_root ++ "]".toList)] }
        else if option = FILL_LINE then
          some { st with assigns := st.assigns ++ [(field, line)] }
        else if option = FILL_IMAGE then
          if imgs.isEmpty then
            some { st with assigns := st.assigns ++ [(field, [])] }
          else
            let image := (imgs.get? (pick st.pickCount % imgs.length)).getD []
            some { st with
                   assigns := st.assigns ++ [(field, "<img src=\"".toList ++ image ++ "\">".toList)],
                   mediaAdded := st.mediaAdded ++ [image],
                   pickCount := st.pickCount + 1 }
        else some st) = _
    have h5 : pyGet FILLING_OPTIONS (5 : Int) = some FILL_IMAGE := by decide
    rw [show pyGet FILLING_OPTIONS ((field, (5 : Int)).2) = some FILL_IMAGE from h5]
    simp only [hempty, Bool.false_eq_true, if_false, hget, Option.getD_some]
    rw [if_neg (by decide), if_neg (by decide), if_neg (by decide), if_neg (by decide),
      if_neg (by decide)]
    simp

theorem random_image_fill_witness :
    ∃ img ∈ ["i.jpg".toList],
      fillStep [] [] [] ["i.jpg".toList] (fun _ => 0) ⟨[], [], 0⟩ ("F".toList, 5) =
        some { assigns := [("F".toList, "<img src=\"".toList ++ img ++ "\">".toList)],
               mediaAdded := [img],
               pickCount := 1 }
      ∧ "<img src=\"".toList ++ img ++ "\">".toList ≠ [] := by
  have h := (random_image_fill [] [] [] "F".toList ["i.jpg".toList] (fun _ => 0)
    ⟨[], [], 0⟩).2 (by decide)
  simpa using h

/-- Claim C9: a field with no previously saved choice gets combo index `-1`
in the grid (`fieldMap.get(name, -1)`), `accept` stores the grid's indices
verbatim as the field map, Python's `FILLING_OPTIONS[-1]` is the last option
`Random Image`, and the fill loop therefore treats index `-1` exactly like
index 5 (the Random Image branch): an unmapped field is filled as
random-image rather than left untouched. -/
theorem unmapped_field_random_image (saved : List (List Char × Int)) (field : List Char)
    (h : dictGet saved field = none) :
    (∀ fields : List (List Char), field ∈ fields →
      (field, (-1 : Int)) ∈ create_field_grid fields saved)
  ∧ (∀ (env : HostEnv) (d : DialogState) (s2 : Settings),
      dialog_accept env d = some s2 → s2.fieldMap = d.grid)
  ∧ pyGet FILLING_OPTIONS (-1 : Int) = some FILL_IMAGE
  ∧ ∀ (prov line std_root : List Char) (imgs : List (List Char))
      (pick : Nat → Nat) (st : FillState),
      fillStep prov line std_root imgs pick st (field, -1)
        = fillStep prov line std_root imgs pick st (field, 5) := by
  refine ⟨?_, ?_, by decide, ?_⟩
  · intro fields hf
    have : (field, (-1 : Int))
        = (fun f => (f, comboSetIndex FILLING_OPTIONS.length ((dictGet saved f).getD (-1)))) field := by
      simp [h, comboSetIndex]
    rw [this]
    exact List.mem_map_of_mem _ hf
  · intro env d s2 hacc
    simp only [dialog_accept] at hacc
    repeat' split at hacc
    all_goals first
      | (injection hacc with hacc; rw [← hacc])
      | exact absurd hacc (by simp)
  · intro prov line std_root imgs pick st
    have e1' : pyGet FILLING_OPTIONS (-1 : Int) = some FILL_IMAGE := by decide
    have e2' : pyGet FILLING_OPTIONS (5 : Int) = some FILL_IMAGE := by decide
    have e1 : pyGet FILLING_OPTIONS ((field, (-1 : Int)).2) = some FILL_IMAGE := e1'
    have e2 : pyGet FILLING_OPTIONS ((field, (5 : Int)).2) = some FILL_IMAGE := e2'
    simp only [fillStep, e1, e2]

theorem unmapped_field_random_image_witness :
    (("Front".toList, (-1 : Int)) ∈ create_field_grid ["Front".toList] [])
  ∧ pyGet FILLING_OPTIONS (-1 : Int) = some FILL_IMAGE :=
  ⟨(unmapped_field_random_image [] "Front".toList rfl).1 ["Front".toList] (by simp),
   (unmapped_field_random_image [] "Front".toList rfl).2.2.1⟩

/-- A concrete host used to evaluate whole runs: `mp3`/`wav` model the
host's audio list, `jpg`/`jpeg`/`png` its image list, the clock returns the
call number, the random source always picks index 0, every submission
generates cards, and the filesystem holds one subtitle file `a.lrc`. -/
def hostA : Host :=
  { audioTypes := ["mp3".toList, "wav".toList],
    imageTypes := ["jpg".toList, "jpeg".toList, "png".toList],
    tok := fun n => (Nat.repr n).toList,
    pick := fun _ => 0,
    addNoteOk := fun _ => true,
    fsRead := fun n => if n = "a.lrc".toList then "[00:00:01]Hello".toList else [] }

/-- Claim C1 (code bug): with mapping `Front ↦ audio-reference` the field
receives `[sound:Show.audio-0(1)]` — built from `std_root`, the base name
without extension — while the name under which the audio file was imported
into media storage is `Show.audio-0(1).mp3` (base plus original extension).
The markup therefore does not reference the imported name, so the claimed
playable reference to the imported file does not hold. -/
theorem audio_reference_drops_extension :
    ((do_import_core hostA ["ep1.mp3".toList] "Show".toList
        [("Front".toList, (3 : Int))] "t".toList).map
      fun r => (r.2.mediaAdded, r.2.notesAdded.map NoteRec.fields)).getD ([], [])
      = (["Show.audio-0(1).mp3".toList],
         [[("Front".toList, "[sound:Show.audio-0(1)]".toList)]])
  ∧ "[sound:Show.audio-0(1)]".toList
      ≠ "[sound:".toList ++ "Show.audio-0(1).mp3".toList ++ "]".toList := by
  exact ⟨by decide, by decide⟩

/-- The end-to-end scenario of the specification: `a.mp3`, `a.lrc`, `b.mp3`,
`cover.jpg`, provenance `Show`, mapping {Front: audio-reference (3),
Back: subtitle-text (4)}. -/
def runB : Option (ClassifyState × ImportState) :=
  do_import_core hostA
    ["a.mp3".toList, "a.lrc".toList, "b.mp3".toList, "cover.jpg".toList]
    "Show".toList [("Front".toList, (3 : Int)), ("Back".toList, (4 : Int))] "t".toList

/-- Claim C2, counterexample: in the end-to-end scenario the classification
pass copies `cover.jpg` only within the working directory (to
`Show.image-0.jpg`); media storage receives exactly the two audio files and
never `cover.jpg` nor its standardized copy, and `cover.jpg` itself is not
removed — only the standardized working copy is. -/
theorem image_not_imported_to_media_cex :
    ((runB.map fun r => (r.1.std_image_files, r.2.mediaAdded, r.2.removed)).getD ([], [], [])
      = (["Show.image-0.jpg".toList],
         ["Show.audio-1(1).mp3".toList, "Show.audio-2(2).mp3".toList],
         ["Show.audio-1(1).mp3".toList, "Show.audio-2(2).mp3".toList,
          "Show.image-0.jpg".toList]))
  ∧ "Show.image-0.jpg".toList ∉ (runB.map fun r => r.2.mediaAdded).getD []
  ∧ "cover.jpg".toList ∉ (runB.map fun r => r.2.mediaAdded).getD []
  ∧ "cover.jpg".toList ∉ (runB.map fun r => r.2.removed).getD [] := by
  exact ⟨by decide, by decide, by decide, by decide⟩

theorem classifyStep_copies_inv (audioTypes imageTypes : List (List Char))
    (tok : Nat → List Char) (prefixStr : List Char) (st : ClassifyState) (f : List Char)
    (h1 : st.copies.map Prod.snd = st.std_image_files)
    (h2 : ∀ p ∈ st.copies, ∃ j, p.2 = prefixStr ++ ".image-".toList ++ tok j ++ (splitext p.1).2) :
    (classifyStep audioTypes imageTypes tok prefixStr st f).copies.map Prod.snd
        = (classifyStep audioTypes imageTypes tok prefixStr st f).std_image_files
    ∧ ∀ p ∈ (classifyStep audioTypes imageTypes tok prefixStr st f).copies,
        ∃ j, p.2 = prefixStr ++ ".image-".toList ++ tok j ++ (splitext p.1).2 := by
  simp only [classifyStep]
  cases classify audioTypes imageTypes f with
  | audioRole => exact ⟨h1, h2⟩
  | subRole => exact ⟨h1, h2⟩
  | ignored => exact ⟨h1, h2⟩
  | imageRole =>
    constructor
    · simp [h1]
    · intro p hp
      rw [List.mem_append] at hp
      rcases hp with hp | hp
      · exact h2 p hp
      · rw [List.mem_singleton] at hp
        subst hp
        exact ⟨st.tokCount, rfl⟩

theorem classifyFiles_copies_inv (audioTypes imageTypes : List (List Char))
    (tok : Nat → List Char) (prefixStr : List Char) :
    ∀ (file_names : List (List Char)) (st : ClassifyState),
      st.copies.map Prod.snd = st.std_image_files →
      (∀ p ∈ st.copies, ∃ j, p.2 = prefixStr ++ ".image-".toList ++ tok j ++ (splitext p.1).2) →
      (file_names.foldl (classifyStep audioTypes imageTypes tok prefixStr) st).copies.map Prod.snd
          = (file_names.foldl (classifyStep audioTypes imageTypes tok prefixStr) st).std_image_files
      ∧ ∀ p ∈ (file_names.foldl (classifyStep audioTypes imageTypes tok prefixStr) st).copies,
          ∃ j, p.2 = prefixStr ++ ".image-".toList ++ tok j ++ (splitext p.1).2 := by
  intro file_names
  induction file_names with
  | nil => intro st h1 h2; exact ⟨h1, h2⟩
  | cons f rest ih =>
    intro st h1 h2
    obtain ⟨g1, g2⟩ := classifyStep_copies_inv audioTypes imageTypes tok prefixStr st f h1 h2
    exact ih _ g1 g2

/-- Claim C2 (amended): during the classification pass every image file is
copied within the working directory — never into media storage — under the
standardized name `<prefix>.image-<token><original extension>`, and the
copies correspond one-to-one to the recorded standardized image names; an
image reaches media storage only through a random-image fill.  In the
end-to-end scenario (mapping {Front: audio-reference, Back: subtitle-text},
which has no random-image field), `cover.jpg`'s standardized copy
`Show.image-0.jpg` is created, nothing but the two audio files is imported
into media storage, and the standardized copy — not `cover.jpg` — is removed
from the working directory at the end. -/
theorem image_copy_semantics :
    (∀ (audioTypes imageTypes : List (List Char)) (tok : Nat → List Char)
        (prefixStr : List Char) (file_names : List (List Char)),
      (classifyFiles audioTypes imageTypes tok prefixStr file_names).copies.map Prod.snd
          = (classifyFiles audioTypes imageTypes tok prefixStr file_names).std_image_files
      ∧ ∀ p ∈ (classifyFiles audioTypes imageTypes tok prefixStr file_names).copies,
          ∃ j, p.2 = prefixStr ++ ".image-".toList ++ tok j ++ (splitext p.1).2)
  ∧ ((runB.map fun r => (r.1.copies, r.2.mediaAdded, r.2.removed)).getD ([], [], [])
      = ([("cover.jpg".toList, "Show.image-0.jpg".toList)],
         ["Show.audio-1(1).mp3".toList, "Show.audio-2(2).mp3".toList],
         ["Show.audio-1(1).mp3".toList, "Show.audio-2(2).mp3".toList,
          "Show.image-0.jpg".toList])) := by
  constructor
  · intro audioTypes imageTypes tok prefixStr file_names
    exact classifyFiles_copies_inv audioTypes imageTypes tok prefixStr file_names
      ⟨[], [], [], [], 0⟩ rfl (by intro p hp; simp at hp)
  · decide

theorem image_copy_semantics_witness :
    (classifyFiles ["mp3".toList] ["jpg".toList] (fun n => (Nat.repr n).toList) "S".toList
        ["x.jpg".toList]).copies.map Prod.snd
      = (classifyFiles ["mp3".toList] ["jpg".toList] (fun n => (Nat.repr n).toList) "S".toList
        ["x.jpg".toList]).std_image_files :=
  (image_copy_semantics.1 ["mp3".toList] ["jpg".toList] (fun n => (Nat.repr n).toList)
    "S".toList ["x.jpg".toList]).1

theorem firstFail_spec (ok : Nat → Bool) :
    ∀ (n base : Nat),
      (firstFail ok base n = none → ∀ j, j < n → ok (base + j) = true)
    ∧ (∀ k, firstFail ok base n = some k →
        k < n ∧ ok (base + k) = false ∧ ∀ j, j < k → ok (base + j) = true) := by
  intro n
  induction n with
  | zero =>
    intro base
    exact ⟨fun _ j hj => absurd hj (Nat.not_lt_zero j),
           fun k hk => by simp [firstFail] at hk⟩
  | succ m ih =>
    intro base
    constructor
    · intro hnone j hj
      rw [firstFail] at hnone
      split at hnone
      case isTrue hok =>
        have hin : firstFail ok (base + 1) m = none := by
          cases hi : firstFail ok (base + 1) m with
          | none => rfl
          | some k => rw [hi] at hnone; simp at hnone
        cases j with
        | zero => simpa using hok
        | succ j2 =>
          have hr := (ih (base + 1)).1 hin j2 (by omega)
          have e : base + 1 + j2 = base + (j2 + 1) := by omega
          rw [e] at hr
          exact hr
      case isFalse => simp at hnone
    · intro k hk
      rw [firstFail] at hk
      split at hk
      case isTrue hok =>
        cases hi : firstFail ok (base + 1) m with
        | none => rw [hi] at hk; simp at hk
        | some k2 =>
          rw [hi] at hk
          simp only [Option.map_some', Option.some.injEq] at hk
          obtain ⟨hk1, hk2, hk3⟩ := (ih (base + 1)).2 k2 hi
          subst hk
          refine ⟨by omega, ?_, ?_⟩
          · have e : base + (k2 + 1) = base + 1 + k2 := by omega
            rw [e]
            exact hk2
          · intro j hj
            cases j with
            | zero => simpa using hok
            | succ j2 =>
              have hr := hk3 j2 (by omega)
              have e : base + 1 + j2 = base + (j2 + 1) := by omega
              rw [e] at hr
              exact hr
      case isFalse hok =>
        simp only [Option.some.injEq] at hk
        subst hk
        exact ⟨Nat.succ_pos m, by simpa using hok,
               fun j hj => absurd hj (Nat.not_lt_zero j)⟩

theorem fillStep_isSome (prov line std_root : List Char) (imgs : List (List Char))
    (pick : Nat → Nat) (st : FillState) (fm : List Char × Int)
    (h : (pyGet FILLING_OPTIONS fm.2).isSome = true) :
    (fillStep prov line std_root imgs pick st fm).isSome = true := by
  cases ho : pyGet FILLING_OPTIONS fm.2 with
  | none => rw [ho] at h; simp at h
  | some o =>
    simp only [fillStep, ho]
    repeat' split
    all_goals simp

theorem fillFields_isSome (prov line std_root : List Char) (imgs : List (List Char))
    (pick : Nat → Nat) :
    ∀ (field_map : List (List Char × Int)) (st : FillState),
      (∀ p ∈ field_map, (pyGet FILLING_OPTIONS p.2).isSome = true) →
      ∃ out, List.foldlM (fillStep prov line std_root imgs pick) st field_map = some out := by
  intro field_map
  induction field_map with
  | nil => intro st _; exact ⟨st, rfl⟩
  | cons p rest ih =>
    intro st h
    cases hs : fillStep prov line std_root imgs pick st p with
    | none =>
      have hp := fillStep_isSome prov line std_root imgs pick st p
        (h p (List.mem_cons_self p rest))
      rw [hs] at hp
      simp at hp
    | some st2 =>
      obtain ⟨out, hout⟩ := ih st2 fun q hq => h q (List.mem_cons_of_mem p hq)
      refine ⟨out, ?_⟩
      rw [List.foldlM_cons, hs]
      simpa using hout

theorem noteLoop_spec (host : Host) (sp prov : List Char)
    (field_map : List (List Char × Int)) (tags : List Char)
    (subL : List (List Char × List Char)) (imgs : List (List Char))
    (hfm : ∀ p ∈ field_map, (pyGet FILLING_OPTIONS p.2).isSome = true) :
    ∀ (audioL : List (List Char × List Char)) (i : Nat) (st : ImportState),
      st.is_import_failed = false →
      ∃ st2, noteLoop host sp prov field_map tags subL imgs i audioL st = some st2 ∧
        match firstFail host.addNoteOk st.notesAdded.length audioL.length with
        | none =>
            st2.notesAdded.length = st.notesAdded.length + audioL.length ∧
            st2.card_count = st.card_count + audioL.length ∧
            st2.is_import_failed = false
        | some k =>
            st2.notesAdded.length = st.notesAdded.length + k + 1 ∧
            st2.card_count = st.card_count + k ∧
            st2.is_import_failed = true := by
  intro audioL
  induction audioL with
  | nil =>
    intro i st hflag
    exact ⟨st, rfl, by simp [firstFail, hflag]⟩
  | cons a rest ih =>
    intro i st hflag
    simp only [noteLoop]
    obtain ⟨fs, hfs⟩ := fillFields_isSome prov
      (getLine host.fsRead subL a.1)
      (sp ++ ".audio-".toList ++ host.tok st.tokCount
        ++ "(".toList ++ (Nat.repr (i + 1)).toList ++ ")".toList)
      imgs host.pick field_map ⟨[], [], st.pickCount⟩ hfm
    rw [show fillFields prov
        (getLine host.fsRead subL a.1)
        (sp ++ ".audio-".toList ++ host.tok st.tokCount
          ++ "(".toList ++ (Nat.repr (i + 1)).toList ++ ")".toList)
        imgs host.pick field_map st.pickCount = some fs from hfs]
    simp only [List.length_cons]
    cases hOk : host.addNoteOk st.notesAdded.length with
    | true =>
      obtain ⟨st2, hrun, hmatch⟩ := ih (i + 1)
        { st with
          tokCount := st.tokCount + 1,
          copies := st.copies ++ [(a.1 ++ a.2,
            sp ++ ".audio-".toList ++ host.tok st.tokCount
              ++ "(".toList ++ (Nat.repr (i + 1)).toList ++ ")".toList ++ a.2)],
          mediaAdded := st.mediaAdded ++ [sp ++ ".audio-".toList ++ host.tok st.tokCount
              ++ "(".toList ++ (Nat.repr (i + 1)).toList ++ ")".toList ++ a.2]
            ++ fs.mediaAdded,
          removed := st.removed ++ [sp ++ ".audio-".toList ++ host.tok st.tokCount
              ++ "(".toList ++ (Nat.repr (i + 1)).toList ++ ")".toList ++ a.2],
          pickCount := fs.pickCount,
          notesAdded := st.notesAdded ++ [⟨fs.assigns, [tags]⟩],
          card_count := st.card_count + 1 } hflag
      refine ⟨st2, hrun, ?_⟩
      rw [show firstFail host.addNoteOk st.notesAdded.length (rest.length + 1)
          = (firstFail host.addNoteOk (st.notesAdded.length + 1) rest.length).map
              (fun k => k + 1) from by rw [firstFail, if_pos hOk]]
      simp only [List.length_append, List.length_cons, List.length_nil] at hmatch
      cases hff : firstFail host.addNoteOk (st.notesAdded.length + 1) rest.length with
      | none =>
        rw [hff] at hmatch
        obtain ⟨m1, m2, m3⟩ := hmatch
        simp only [Option.map_none']
        exact ⟨by omega, by omega, m3⟩
      | some k =>
        rw [hff] at hmatch
        obtain ⟨m1, m2, m3⟩ := hmatch
        simp only [Option.map_some']
        exact ⟨by omega, by omega, m3⟩
    | false =>
      refine ⟨_, rfl, ?_⟩
      rw [show firstFail host.addNoteOk st.notesAdded.length (rest.length + 1)
          = some 0 from by rw [firstFail, if_neg (by simp [hOk])]]
      refine ⟨by simp, by simp, rfl⟩

/-- Claim C3: provided every fill-option index is in range (otherwise the
run raises), the run always terminates with a report; when no submission
reports zero cards, the number of notes attempted equals the number of audio
files, they are all counted successful and the failure flag is false; when
submission `k` is the first to report zero cards, exactly `k + 1` notes are
attempted (none after the failure), `k` are counted successful, and the
failure flag is true.  In both cases the flag is true exactly when some
attempted submission reported a zero-card note. -/
theorem note_attempt_counts (host : Host) (file_names : List (List Char))
    (prov : List Char) (field_map : List (List Char × Int)) (tags : List Char)
    (hfm : ∀ p ∈ field_map, (pyGet FILLING_OPTIONS p.2).isSome = true) :
    ∃ cs st, do_import_core host file_names prov field_map tags = some (cs, st) ∧
      match firstFail host.addNoteOk 0 cs.audio_files.length with
      | none =>
          st.notesAdded.length = cs.audio_files.length ∧
          st.card_count = cs.audio_files.length ∧
          st.is_import_failed = false ∧
          ∀ j, j < cs.audio_files.length → host.addNoteOk j = true
      | some k =>
          st.notesAdded.length = k + 1 ∧
          st.card_count = k ∧
          st.is_import_failed = true ∧
          host.addNoteOk k = false ∧ ∀ j, j < k → host.addNoteOk j = true := by
  obtain ⟨stf, hrun, hmatch⟩ := noteLoop_spec host
    (std_prefix_of prov) prov field_map tags
    (classifyFiles host.audioTypes host.imageTypes host.tok (std_prefix_of prov) file_names).sub_files
    (classifyFiles host.audioTypes host.imageTypes host.tok (std_prefix_of prov) file_names).std_image_files
    hfm
    (classifyFiles host.audioTypes host.imageTypes host.tok (std_prefix_of prov) file_names).audio_files
    0 ⟨(classifyFiles host.audioTypes host.imageTypes host.tok (std_prefix_of prov) file_names).tokCount,
       0, [], [], [], [], 0, false⟩ rfl
  refine ⟨classifyFiles host.audioTypes host.imageTypes host.tok (std_prefix_of prov) file_names,
    { stf with removed := stf.removed
        ++ (classifyFiles host.audioTypes host.imageTypes host.tok (std_prefix_of prov) file_names).std_image_files },
    ?_, ?_⟩
  · simp only [do_import_core]
    rw [hrun]
  · simp only [List.length_nil, Nat.zero_add] at hmatch
    cases hff : firstFail host.addNoteOk 0
        (classifyFiles host.audioTypes host.imageTypes host.tok (std_prefix_of prov) file_names).audio_files.length with
    | none =>
      rw [hff] at hmatch
      obtain ⟨m1, m2, m3⟩ := hmatch
      have hall := (firstFail_spec host.addNoteOk
        (classifyFiles host.audioTypes host.imageTypes host.tok (std_prefix_of prov) file_names).audio_files.length
        0).1 hff
      exact ⟨m1, m2, m3, fun j hj => by simpa using hall j hj⟩
    | some k =>
      rw [hff] at hmatch
      obtain ⟨m1, m2, m3⟩ := hmatch
      obtain ⟨g1, g2, g3⟩ := (firstFail_spec host.addNoteOk
        (classifyFiles host.audioTypes host.imageTypes host.tok (std_prefix_of prov) file_names).audio_files.length
        0).2 k hff
      exact ⟨m1, m2, m3, by simpa using g2, fun j hj => by simpa using g3 j hj⟩

/-- A host whose second submission (index 1) reports zero cards. -/
def hostB : Host :=
  { hostA with addNoteOk := fun j => decide (j = 0) }

theorem note_attempt_counts_witness :
    ∃ cs st, do_import_core hostB ["a.mp3".toList, "b.mp3".toList, "c.mp3".toList]
        "S".toList [("Front".toList, (3 : Int))] "t".toList = some (cs, st) ∧
      match firstFail hostB.addNoteOk 0 cs.audio_files.length with
      | none =>
          st.notesAdded.length = cs.audio_files.length ∧
          st.card_count = cs.audio_files.length ∧
          st.is_import_failed = false ∧
          ∀ j, j < cs.audio_files.length → hostB.addNoteOk j = true
      | some k =>
          st.notesAdded.length = k + 1 ∧
          st.card_count = k ∧
          st.is_import_failed = true ∧
          hostB.addNoteOk k = false ∧ ∀ j, j < k → hostB.addNoteOk j = true :=
  note_attempt_counts hostB ["a.mp3".toList, "b.mp3".toList, "c.mp3".toList]
    "S".toList [("Front".toList, (3 : Int))] "t".toList (by decide)

theorem dictGet_map_self (v : List Char → Int) :
    ∀ (fields : List (List Char)) (f : List Char), f ∈ fields →
      dictGet (fields.map fun g => (g, v g)) f = some (v f) := by
  intro fields
  induction fields with
  | nil => intro f hf; simp at hf
  | cons g rest ih =>
    intro f hf
    by_cases hfg : f = g
    · subst hfg
      simp [dictGet, List.find?]
    · have hne : (g == f) = false := beq_eq_false_iff_ne.mpr (Ne.symm hfg)
      simp only [dictGet, List.map_cons, List.find?, hne]
      rw [List.mem_cons] at hf
      rcases hf with rfl | hf
      · exact absurd rfl hfg
      · exact ih f hf

theorem comboSetIndex_id {i : Int} (h1 : -1 ≤ i) (h2 : i < 6) :
    comboSetIndex FILLING_OPTIONS.length i = i := by
  have hc : FILLING_OPTIONS.length = 6 := by decide
  simp only [comboSetIndex, hc]
  by_cases h0 : 0 ≤ i
  · rw [if_pos ⟨h0, by exact_mod_cast h2⟩]
  · rw [if_neg (by omega)]
    omega

/-- Claim C7: a confirmed configuration (directory exists, provenance and
deck/model names non-empty, field map covering exactly the model's fields
with combo indices in `[-1, 5]`), once saved and reloaded into the dialog,
is reproduced identically by the next accept, provided the referenced
directory, deck, note type and its fields still exist unchanged. -/
theorem settings_round_trip (env : HostEnv) (s : Settings) (v : List Char → Int)
    (hdir : s.dirPath ∈ env.existingDirs)
    (hprov : s.prov ≠ [])
    (hdeck : s.deckName ∈ env.deckList) (hdeckne : s.deckName ≠ [])
    (hmodel : s.modelName ∈ env.modelList) (hmodelne : s.modelName ≠ [])
    (hfm : s.fieldMap = (env.fieldsOf s.modelName).map fun f => (f, v f))
    (hv : ∀ f ∈ env.fieldsOf s.modelName, -1 ≤ v f ∧ v f < 6) :
    dialog_accept env (dialog_init env s) = some s := by
  have hgrid : create_field_grid (env.fieldsOf s.modelName) s.fieldMap
      = (env.fieldsOf s.modelName).map fun f => (f, v f) := by
    rw [hfm]
    unfold create_field_grid
    apply List.map_congr_left
    intro f hf
    rw [dictGet_map_self v _ f hf]
    simp only [Option.getD_some]
    obtain ⟨hv1, hv2⟩ := hv f hf
    rw [comboSetIndex_id hv1 hv2]
  have hinit : dialog_init env s =
      ({ dirPath := s.dirPath, prov := s.prov,
         deckName := s.deckName, modelName := s.modelName,
         grid := (env.fieldsOf s.modelName).map fun f => (f, v f),
         tags := s.tags } : DialogState) := by
    simp only [dialog_init, if_pos hdir, if_pos hdeck, if_pos hmodel, if_neg hmodelne, hgrid]
  rw [hinit]
  simp only [dialog_accept]
  rw [if_pos hdir, if_neg hprov, if_neg hdeckne, if_neg hmodelne,
    if_pos (by rw [List.length_map])]
  rw [← hfm]

/-- Concrete host environment and confirmed configuration exercising the
round trip. -/
def envW : HostEnv :=
  { existingDirs := ["d".toList],
    homePath := "h".toList,
    deckList := ["Default".toList],
    currentDeck := "Default".toList,
    modelList := ["Basic".toList],
    currentModel := "Basic".toList,
    fieldsOf := fun m => if m = "Basic".toList then ["Front".toList, "Back".toList] else [] }

def settingsW : Settings :=
  { dirPath := "d".toList, prov := "p".toList, deckName := "Default".toList,
    modelName := "Basic".toList,
    fieldMap := [("Front".toList, 3), ("Back".toList, -1)],
    tags := "t".toList }

theorem settings_round_trip_witness :
    dialog_accept envW (dialog_init envW settingsW) = some settingsW :=
  settings_round_trip envW settingsW
    (fun f => if f = "Front".toList then 3 else -1)
    (by decide) (by decide) (by decide) (by decide) (by decide) (by decide)
    (by decide) (by decide)

end L2A
